import Mathlib

/-!
Shallow embedding of the `ifsnipype` interface layer
(`src/ifsnipype/base/{clis,core,specs,support}.py`) and proofs about it.

Conventions of the embedding:
* Python `Undefined` is `Option.none`; a defined trait value is `some v`.
* Trait values relevant to command-line handling are modelled by `Value`
  (strings, booleans and lists of strings).
* Python exceptions become `Except PyErr`; each raise site in the source
  maps to one `PyErr` constructor carrying the formatted message where the
  message matters.
* Python `%`-interpolation is modelled for format strings whose conversion
  is written `%s` (the general printf machinery is a language builtin, not
  code of this repository); `str.replace`, `str.split` and friends are
  re-implemented on `List Char` so that everything reduces in the kernel.
-/

/-- Python truthiness / values of traits as used by the command-line layer:
strings, booleans and (flat) lists of strings. -/
inductive Value where
  | str (s : String)
  | boolean (b : Bool)
  | strs (xs : List String)
deriving DecidableEq, Repr

/-- Python `str()` of a `Value` (list rendering is irrelevant to the claims
and kept schematic). -/
def pyStr : Value → String
  | .str s => s
  | .boolean b => if b then "True" else "False"
  | .strs xs => String.join xs

/-- Python truthiness of a `Value` (`if value:`). -/
def Value.truthy : Value → Bool
  | .str s => s ≠ ""
  | .boolean b => b
  | .strs xs => xs ≠ []

/-- Python `isinstance(value, list)`. -/
def Value.isPyList : Value → Bool
  | .strs _ => true
  | _ => false

/-- Elements iterated by `for elt in value`.  Under trait validation this
branch only ever sees list values; the other cases are unreachable there
and given harmless meanings. -/
def Value.elems : Value → List String
  | .strs xs => xs
  | .str s => s.data.map (fun c => String.mk [c])
  | .boolean b => [pyStr (.boolean b)]

/-- Substitute `arg` for the first `%s` conversion of `fmt`
(model of Python `fmt % arg`). -/
def substPS : List Char → List Char → List Char
  | '%' :: 's' :: rest, arg => arg ++ rest
  | c :: rest, arg => c :: substPS rest arg
  | [], _ => []

/-- Python `fmt % arg` for a single string argument. -/
def pyFormat (fmt arg : String) : String :=
  String.mk (substPS fmt.data arg.data)

/-- Whether the two-character marker `%s` occurs in the character list. -/
def hasPSChars : List Char → Bool
  | '%' :: 's' :: _ => true
  | _ :: rest => hasPSChars rest
  | [] => false

/-- Python `"%s" in s` for a string `s`. -/
def hasPS (s : String) : Bool := hasPSChars s.data

/-- Whether the character `c` occurs (Python `c in s`). -/
def strHasChar (s : String) (c : Char) : Bool := s.data.contains c

/-- Python `s.endswith("...")`. -/
def endsWithDots (s : String) : Bool :=
  match s.data.reverse with
  | '.' :: '.' :: '.' :: _ => true
  | _ => false

/-- Python `s.replace("...", "")`: left-to-right removal of every
non-overlapping occurrence of `...`. -/
def stripDotsChars : List Char → List Char
  | '.' :: '.' :: '.' :: rest => stripDotsChars rest
  | c :: rest => c :: stripDotsChars rest
  | [] => []

/-- Python `s.replace("...", "")` on strings. -/
def stripDots (s : String) : String := String.mk (stripDotsChars s.data)

/-- Python `sep.join(xs)`. -/
def joinSep (sep : String) : List String → String
  | [] => ""
  | [x] => x
  | x :: y :: xs => x ++ sep ++ joinSep sep (y :: xs)

/-- Index (from the right end) of the last dot of a file name, if any:
helper for the extension split. -/
def lastDotSuffix : List Char → Option (List Char)
  | [] => none
  | c :: rest =>
    match lastDotSuffix rest with
    | some suf => some suf
    | none => if c = '.' then some (c :: rest) else none

/-- Python `os.path.splitext`-style split of a base name into
(stem, extension); a dot in first position starts a hidden file, not an
extension. -/
def splitExtChars (cs : List Char) : String × String :=
  match cs with
  | [] => ("", "")
  | c0 :: rest =>
    match lastDotSuffix rest with
    | some suf => (String.mk (c0 :: rest.take (rest.length - suf.length)), String.mk suf)
    | none => (String.mk (c0 :: rest), "")

/-- Python `s.endswith(suffix)`. -/
def strEndsWith (s suf : String) : Bool :=
  s.data.reverse.take suf.data.length = suf.data.reverse

/-- Characters after the last `/`, i.e. `os.path.basename`. -/
def baseNameChars : List Char → List Char
  | [] => []
  | c :: rest => if ('/' : Char) ∈ c :: rest then baseNameChars rest else c :: rest

/-- Modelled from the spec: `split_filename` is an external utility
(`nipype.utils.filemanip`) used by the filename deriver to "extract its
file extension"; it returns (directory, base name, extension) and knows
compound extensions such as `.nii.gz`. -/
def splitFilename (s : String) : String × String × String :=
  let fname := String.mk (baseNameChars s.data)
  let pth := String.mk (s.data.take (s.length - fname.length - 1))
  if strEndsWith fname ".nii.gz" then
    (pth, String.mk (fname.data.take (fname.length - 7)), ".nii.gz")
  else if strEndsWith fname ".tar.gz" then
    (pth, String.mk (fname.data.take (fname.length - 7)), ".tar.gz")
  else
    let (base, ext) := splitExtChars fname.data
    (pth, base, ext)

/-- Trait-type dispatch used by `_format_arg`
(`is_trait_type(traits.Bool)`, `is_trait_type(traits.List)`,
`is_trait_type(traits.TraitCompound)`). -/
inductive TraitKind where
  | bool
  | list
  | compound
  | other
deriving DecidableEq, Repr

/-- The per-field metadata of a declared trait that the command-line layer
reads (argstr, position, sep, name_source, name_template, keep_extension,
output_name, xor, requires, genfile, mandatory, usedefault and the
default value used when `usedefault` is set).  An empty `name_source`,
`xor` or `requires` list stands for Python `None`. -/
structure FieldSpec where
  argstr : Option String := none
  position : Option Int := none
  kind : TraitKind := .other
  sep : Option String := none
  name_source : List String := []
  name_template : Option String := none
  keep_extension : Bool := false
  output_name : Option String := none
  xor : List String := []
  requires : List String := []
  genfile : Bool := false
  mandatory : Bool := false
  usedefault : Bool := false
  defaultValue : Value := .str ""
deriving DecidableEq, Repr

/-- An input spec instance: trait metadata lookup, current values
(`none` = `Undefined`) and the declared trait names (`self.inputs.traits()`,
iterated in sorted order by the parser). -/
structure Inputs where
  spec : String → FieldSpec
  value : String → Option Value
  fields : List String

/-- Python exceptions raised by the embedded code. -/
inductive PyErr where
  | ioError (msg : String)
  | valueError (msg : String)
  | runtimeError (msg : String)
  | interfaceError (msg : String)
  | typeError
  | indexError
  | notImplemented
  | fuelExhausted
deriving DecidableEq, Repr

/-- `CommandLine._format_arg` (clis.py:261-297): format one trait value
using its `argstr`. -/
def formatArg (ts : FieldSpec) (argstr : String) (v : Value) : Option String :=
  if ts.kind = .bool ∧ ¬ strHasChar argstr '%' then
    -- Boolean options have no format string. Just append options if True.
    if v.truthy then some argstr else none
  else if ts.kind = .list ∨ (ts.kind = .compound ∧ v.isPyList) then
    let sep := ts.sep.getD " "
    if endsWithDots argstr then
      -- repeatable option: strip the marker and emit one instance per element
      some (joinSep sep (v.elems.map (fun elt => pyFormat (stripDots argstr) elt)))
    else
      some (pyFormat argstr (joinSep sep v.elems))
  else
    some (pyFormat argstr (pyStr v))

/-- Python `"%s" in retval` on a defined value (`in` on a boolean raises
`TypeError`). -/
def psPresent : Value → Except PyErr Bool
  | .str s => pure (hasPS s)
  | .strs xs => pure (xs.contains "%s")
  | .boolean _ => throw .typeError

/-- Python `while isinstance(source, list): source = source[0]` (an empty
list raises `IndexError`). -/
def unlistValue : Value → Except PyErr Value
  | .strs [] => throw .indexError
  | .strs (x :: _) => pure (.str x)
  | v => pure v

/-- `CommandLine._overload_extension` (clis.py:378-379): the default hook is
the identity. -/
def overloadExtension (v : String) : String := v

/-- Tail of `_filename_from_source` (clis.py:366-372): apply the name
template to the base and decide extension handling.  A `source_ext` of `""`
stands for both Python `None` and the empty extension (they are
indistinguishable downstream, both being falsy). -/
def finishDerive (ts : FieldSpec) (nameTemplate base source_ext : String) : Option Value :=
  let retval := pyFormat nameTemplate base
  let ext := (splitFilename retval).2.2
  let retval2 :=
    if ts.keep_extension ∧ (ext ≠ "" ∨ source_ext ≠ "") then
      if ext = "" ∧ source_ext ≠ "" then retval ++ source_ext else retval
    else overloadExtension retval
  some (.str retval2)

/-- `CommandLine._filename_from_source` (clis.py:299-373): derive a
field value from its `name_source` when the user left it undefined,
tracking the visitation `chain` to detect cyclic derivations.  The fuel
argument only bounds the recursion depth of the embedding; the Python
code is bounded by the finite trait dictionary. -/
def filenameFromSource (inp : Inputs) : Nat → String → List String → Except PyErr (Option Value)
  | 0, _, _ => throw .fuelExhausted
  | fuel + 1, name, chain => do
    let ts := inp.spec name
    let retval := inp.value name
    let proceed ← match retval with
      | none => pure true
      | some v => psPresent v
    if ¬ proceed then pure retval
    else if ts.name_source = [] then pure retval
    -- Do not generate filename when excluded by other inputs
    else if ts.xor.any (fun f => (inp.value f).isSome) then pure retval
    -- Do not generate filename when required fields are missing
    else if ¬ ts.requires.all (fun f => (inp.value f).isSome) then pure retval
    else do
      let nt0 ← match retval with
        | some (.str s) => pure s
        | some _ => throw .typeError
        | none => pure (ts.name_template.getD "")
      let nameTemplate := if nt0 = "" then "%s_generated" else nt0
      match ts.name_source with
      | [] => pure retval
      | ns :: _ =>
        match inp.value ns with
        | some srcv => do
          let src ← unlistValue srcv
          -- special treatment for files; non-strings keep the raw source
          let be : String × String := match src with
            | .str s => ((splitFilename s).2.1, (splitFilename s).2.2)
            | v => (pyStr v, "")
          pure (finishDerive ts nameTemplate be.1 be.2)
        | none =>
          if name ∈ chain then throw (.interfaceError "Mutually pointing name_sources")
          else do
            let baseOpt ← filenameFromSource inp fuel ns (chain ++ [name])
            match baseOpt with
            | some bv => do
              let bs ← match bv with
                | .str s => pure s
                | _ => throw .typeError
              pure (finishDerive ts nameTemplate bs (splitFilename bs).2.2)
            | none =>
              -- Do not generate filename when required fields are missing
              pure retval

/-- One iteration body of the `_parse_inputs` loop (clis.py:411-429):
resolve the effective value of a field (derived name, genfile) and format
it; `none` means the field contributes no token.  `CommandLine._gen_filename`
(clis.py:375-376) raises `NotImplementedError`. -/
def fieldArg (inp : Inputs) (fuel : Nat) (name : String) : Except PyErr (Option String) := do
  let ts := inp.spec name
  match ts.argstr with
  | none => pure none
  | some a => do
    let v0 := inp.value name
    let v ← if ts.name_source ≠ [] then filenameFromSource inp fuel name []
      else if ts.genfile ∧ v0 = none then throw .notImplemented
      else pure v0
    match v with
    | none => pure none
    | some v1 => pure (formatArg ts a v1)

/-- Association-list update with Python `dict` semantics:
`d[k] = v` replaces in place or appends. -/
def upsertBy {κ α : Type} [DecidableEq κ] (k : κ) (v : α) : List (κ × α) → List (κ × α)
  | [] => [(k, v)]
  | (k1, v1) :: rest => if k1 = k then (k1, v) :: rest else (k1, v1) :: upsertBy k v rest

/-- Association-list lookup (`d[k]` / `k in d`). -/
def lookupBy {κ α : Type} [DecidableEq κ] (k : κ) : List (κ × α) → Option α
  | [] => none
  | (k1, v1) :: rest => if k1 = k then some v1 else lookupBy k rest

/-- Lexicographic code-point comparison of characters lists (Python string
ordering used by `sorted`). -/
def charsLe : List Char → List Char → Bool
  | [], _ => true
  | _ :: _, [] => false
  | a :: as, b :: bs =>
    if a.val < b.val then true
    else if b.val < a.val then false
    else charsLe as bs

/-- Python `s1 <= s2` on strings. -/
def strLe (a b : String) : Bool := charsLe a.data b.data

/-- Stable insertion of `a` into a list sorted by `le`. -/
def insertByB {α : Type} (le : α → α → Bool) (a : α) : List α → List α
  | [] => [a]
  | b :: l => if le a b then a :: b :: l else b :: insertByB le a l

/-- Stable insertion sort by `le` (model of Python `sorted`). -/
def sortByB {α : Type} (le : α → α → Bool) (l : List α) : List α :=
  l.foldr (insertByB le) []

/-- Python `sorted` on the `(position, argument)` pairs of a bucket. -/
def sortAssoc (l : List (Int × String)) : List (Int × String) :=
  sortByB (fun x y => decide (x.1 ≤ y.1)) l

/-- The three accumulators of the `_parse_inputs` loop:
`initial_args` (non-negative positions), `all_args` (no position),
`final_args` (negative positions). -/
abbrev ParseAcc := List (Int × String) × List String × List (Int × String)

/-- The `_parse_inputs` for-loop (clis.py:411-440) over the sorted trait
names, threading the three accumulators; a raised exception aborts the
loop. -/
def buildArgsAux (inp : Inputs) (fuel : Nat) (skip : List String) (acc : ParseAcc) : List String → Except PyErr ParseAcc
  | [] => .ok acc
  | n :: rest =>
    if n ∈ skip then buildArgsAux inp fuel skip acc rest
    else
      match fieldArg inp fuel n with
      | .error e => .error e
      | .ok none => buildArgsAux inp fuel skip acc rest
      | .ok (some arg) =>
        match (inp.spec n).position with
        | some p =>
          if 0 ≤ p then buildArgsAux inp fuel skip (upsertBy p arg acc.1, acc.2.1, acc.2.2) rest
          else buildArgsAux inp fuel skip (acc.1, acc.2.1, upsertBy p arg acc.2.2) rest
        | none => buildArgsAux inp fuel skip (acc.1, acc.2.1 ++ [arg], acc.2.2) rest

/-- The trait names iterated by `_parse_inputs`: the fields carrying an
`argstr`, in sorted name order. -/
def parseFields (inp : Inputs) : List String :=
  sortByB strLe (inp.fields.filter (fun n => (inp.spec n).argstr.isSome))

/-- `CommandLine._parse_inputs` (clis.py:395-443): format every defined
field and splice the position buckets around the unordered bucket. -/
def parseInputs (inp : Inputs) (fuel : Nat) (skip : List String) : Except PyErr (List String) :=
  match buildArgsAux inp fuel skip ([], [], []) (parseFields inp) with
  | .error e => .error e
  | .ok (ia, mid, fa) =>
    .ok ((sortAssoc ia).map (fun e => e.2) ++ mid ++ (sortAssoc fa).map (fun e => e.2))

/-- `BaseTraitedSpec._xor_warn` fired through `trait_set`/`setattr`
(specs.py:99-116): assigning a defined value to a trait that carries `xor`
metadata raises `IOError` when a mutually exclusive partner is already
set (the trait itself is reset to `Undefined` before raising, so the
pre-assignment state is what an error leaves behind). -/
def assignInput (specOf : String → FieldSpec) (vals : String → Option Value) (name : String) (v : Value) : Except PyErr (String → Option Value) :=
  let vals2 := fun n => if n = name then some v else vals n
  match ((specOf name).xor.filter (fun t => t ≠ name)).find? (fun t => (vals t).isSome) with
  | some partner =>
    throw (.ioError ("Input \"" ++ name ++ "\" is mutually exclusive with input \"" ++ partner ++ "\", which is already set"))
  | none => pure vals2

/-- `trait_set(**kwargs)`: assign a batch of inputs in order. -/
def assignInputs (specOf : String → FieldSpec) (vals : String → Option Value) (assigns : List (String × Value)) : Except PyErr (String → Option Value) :=
  assigns.foldlM (fun vs kv => assignInput specOf vs kv.1 kv.2) vals

/-- `BaseTraitedSpec.__init__` (specs.py:58-72): traits without
`usedefault` start `Undefined`; `usedefault` traits keep their declared
default value. -/
def defaultState (specOf : String → FieldSpec) (fields : List String) : String → Option Value :=
  fun n => if n ∈ fields ∧ (specOf n).usedefault then some (specOf n).defaultValue else none

/-- `BaseTraitedSpec.get_traitsfree` (specs.py:166-175): the current
values as a plain mapping, dropping every `Undefined` attribute. -/
def getTraitsfree (inp : Inputs) : List (String × Value) :=
  inp.fields.filterMap (fun n => (inp.value n).map (fun v => (n, v)))

/-- `BaseInterface.save_inputs_to_json` (core.py:394-401): the produced
JSON file is the serialization (by the external `json.dump`) of the
`get_traitsfree` mapping with `indent=4`; the model returns the mapping
and the indent. -/
def saveInputsToJson (inp : Inputs) : List (String × Value) × Nat :=
  (getTraitsfree inp, 4)

/-- The assignment loop of `load_inputs_from_json` (core.py:389-392):
for each loaded key, `hasattr(self.inputs, key)` guards the `setattr`.
The guard is modelled as membership in the declared trait names,
following the spec wording that unknown keys are silently ignored; how
`hasattr` treats a key naming a non-trait attribute of the strict spec
is behavior of the external traits library, outside this repository.
The `setattr` itself goes through `assignInput`, so trait change
handlers (the xor guard) fire and can abort the load with `IOError`. -/
def loadAssign (specOf : String → FieldSpec) (fields defInputs : List String) : (String → Option Value) → List (String × Value) → Except PyErr (String → Option Value)
  | vals, [] => .ok vals
  | vals, kv :: rest =>
    if kv.1 ∉ defInputs ∧ kv.1 ∈ fields then
      match assignInput specOf vals kv.1 kv.2 with
      | .error e => .error e
      | .ok vals2 => loadAssign specOf fields defInputs vals2 rest
    else loadAssign specOf fields defInputs vals rest

/-- `BaseInterface.load_inputs_from_json` (core.py:377-392): run the
assignment loop over the loaded dict and rebuild the spec state.  Python
iterates a `set` of keys in unspecified order; the model fixes the dict
order, which yields the same final state for the unique keys of a JSON
object (when no change handler raises). -/
def loadInputsFromJson (inp : Inputs) (jsonDict : List (String × Value)) (overwrite : Bool) : Except PyErr Inputs :=
  let defInputs := if overwrite then [] else (getTraitsfree inp).map (fun e => e.1)
  match loadAssign inp.spec inp.fields defInputs inp.value jsonDict with
  | .error e => .error e
  | .ok vals => .ok ⟨inp.spec, vals, inp.fields⟩

/-- The runtime object (`support.py:28-46`, dataclass `Runtime`):
every field exists from creation (defaults `None`), which is why the
`hasattr(runtime, "cmdline")` test in `__exit__` is always true here.
Timestamps are modelled as naturals. -/
structure Runtime where
  environ : List (String × String)
  hostname : String
  interface : String := ""
  cmdline : Option String := none
  startTime : Option Nat := none
  endTime : Option Nat := none
  duration : Option Nat := none
  returncode : Option Int := none
  successCodes : List Int := [0]
  stdout : Option String := none
  stderr : Option String := none
  traceback : Option String := none
  commandPath : Option String := none
  dependencies : String := "<skipped>"
deriving DecidableEq, Repr

/-- The collaborators outside this repository that one run consults:
the search-path resolver `which`, the subprocess runner `run_command`
(modelled by the return code and output text it stores), the two wall
clock readings, and `os.path.abspath`. -/
structure Extern where
  which : String → List (String × String) → Option String
  rc : Int := 0
  stdoutText : String := ""
  stderrText : String := ""
  tEnter : Nat := 0
  tExit : Nat := 0
  absPath : String → String := fun s => s

/-- One configured `CommandLine` interface: its inputs, the wrapped
command, prefix, and run-relevant flags.  `environOverrides` is the value
of the `environ` input trait (a string dict, outside `Value`). -/
structure Iface where
  inp : Inputs
  cmd : String
  cmdPre : String := ""
  ifname : String := "CommandLine"
  hostname : String := ""
  baseEnviron : List (String × String) := []
  environOverrides : List (String × String) := []
  ignoreException : Bool := false
  hasOutputSpec : Bool := false

/-- `BaseInterface._check_xor` (core.py:144-158): a trait with an `xor`
group, none of whose members is defined, while itself undefined. -/
def checkXorMissing (ifname : String) (inp : Inputs) (n : String) : Except PyErr Unit :=
  let ts := inp.spec n
  if ts.xor ≠ [] ∧ ¬ ts.xor.any (fun f => (inp.value f).isSome) ∧ (inp.value n).isNone then
    throw (.valueError (ifname ++ " requires a value for one of the inputs " ++ joinSep ", " ts.xor))
  else pure ()

/-- `BaseInterface._check_requires` (core.py:119-142). -/
def checkRequires (ifname : String) (inp : Inputs) (n : String) : Except PyErr Unit :=
  let ts := inp.spec n
  if ts.requires ≠ [] ∧ ts.requires.any (fun f => (inp.value f).isNone) ∧ (inp.value n).isSome then
    throw (.valueError (ifname ++ " requires values for inputs " ++ joinSep ", " ts.requires ++ " because " ++ n ++ " is set"))
  else pure ()

/-- `BaseInterface._check_mandatory_inputs` (core.py:160-177). -/
def checkMandatoryInputs (ifname : String) (inp : Inputs) : Except PyErr Unit := do
  (inp.fields.filter (fun n => (inp.spec n).mandatory)).forM (fun n => do
    checkXorMissing ifname inp n
    if (inp.value n).isNone ∧ (inp.spec n).xor = [] then
      throw (.valueError (ifname ++ " requires a value for input " ++ n))
    else if (inp.value n).isSome then checkRequires ifname inp n
    else pure ())
  (inp.fields.filter (fun n => ¬ (inp.spec n).mandatory)).forM (fun n => checkRequires ifname inp n)

/-- `CommandLine.cmdline` (clis.py:145-151): validate mandatory inputs,
parse, and join `_cmd_prefix + cmd` with the argument list. -/
def cmdlineOf (i : Iface) (fuel : Nat) : Except PyErr String := do
  checkMandatoryInputs i.ifname i.inp
  let args ← parseInputs i.inp fuel []
  pure (joinSep " " ((i.cmdPre ++ i.cmd) :: args))

/-- `shlex.split(...)[0]` (clis.py:238), modelled as the first
whitespace-delimited token. -/
def firstToken (s : String) : String :=
  String.mk ((s.data.dropWhile (fun c => c = ' ')).takeWhile (fun c => c ≠ ' '))

/-- Python `dict.update` on the runtime environment. -/
def envUpdate (base over : List (String × String)) : List (String × String) :=
  over.foldl (fun acc kv => upsertBy kv.1 kv.2 acc) base

/-- Observable events of one run, used to state "before any subprocess
execution" claims. -/
inductive REvent where
  | entered
  | subprocess
deriving DecidableEq, Repr

/-- `CommandLine._run_interface` (clis.py:207-259) acting on the runtime
produced by context entry.  An error value carries the runtime exactly as
it is at the moment the exception is raised. -/
def runInterfaceStep (i : Iface) (ext : Extern) (fuel : Nat) (codes : List Int) (rt : Runtime) : (Except (PyErr × Runtime) Runtime) × List REvent :=
  match cmdlineOf i fuel with
  | .error _ => (.error (.runtimeError "Error raised when interpolating the command line", rt), [])
  | .ok cl =>
    let rt1 := { rt with
      stdout := none
      stderr := none
      cmdline := some cl
      environ := envUpdate rt.environ i.environOverrides
      successCodes := codes }
    let execName := firstToken (i.cmdPre ++ i.cmd)
    match ext.which execName rt1.environ with
    | none =>
      (.error (.ioError ("No command \"" ++ execName ++ "\" found on host " ++ rt1.hostname
        ++ ". Please check that the corresponding package is installed."), rt1), [])
    | some p =>
      let rt2 := { rt1 with commandPath := some p, dependencies := "<skipped>" }
      let rt3 := { rt2 with returncode := some ext.rc, stdout := some ext.stdoutText, stderr := some ext.stderrText }
      (.ok rt3, [.subprocess])

/-- Python `str(returncode)` where the return code may be `None`. -/
def pyStrOfOptInt : Option Int → String
  | none => "None"
  | some n => toString n

/-- The `retcode not in self._runtime.success_codes` test of `__exit__`
(support.py:118-119); a `None` return code is never a member. -/
def rcOutsideSuccess (rt : Runtime) : Bool :=
  match rt.returncode with
  | none => true
  | some rc => decide (rc ∉ rt.successCodes)

/-- Stand-in for the `traceback.format_exception` text captured by
`__exit__` (support.py:103-105). -/
def excText : PyErr → String
  | .ioError m => "IOError: " ++ m
  | .valueError m => "ValueError: " ++ m
  | .runtimeError m => "RuntimeError: " ++ m
  | .interfaceError m => "NipypeInterfaceError: " ++ m
  | .typeError => "TypeError"
  | .indexError => "IndexError"
  | .notImplemented => "NotImplementedError"
  | .fuelExhausted => "RecursionError"

/-- `RuntimeContext.__exit__` (support.py:89-122): set end time and
duration, capture a traceback on exception (returning normally when
`ignore_exception` is set), and annotate a return code outside the
success-code set as a failure on the result rather than raising. -/
def exitTeardown (ignoreExc : Bool) (tExit : Nat) : Except (PyErr × Runtime) Runtime → Except (PyErr × Runtime) Runtime
  | .ok rt =>
    let rt1 := { rt with endTime := some tExit, duration := some (tExit - rt.startTime.getD 0) }
    let rt2 :=
      if rcOutsideSuccess rt1 then
        { rt1 with traceback := some ("RuntimeError: subprocess exited with code " ++ pyStrOfOptInt rt1.returncode ++ ".") }
      else rt1
    .ok rt2
  | .error (e, rt) =>
    let rt1 := { rt with endTime := some tExit, duration := some (tExit - rt.startTime.getD 0), traceback := some (excText e) }
    if ignoreExc then .ok rt1
    else
      let rt2 :=
        if rcOutsideSuccess rt1 then
          { rt1 with traceback := some ("RuntimeError: subprocess exited with code " ++ pyStrOfOptInt rt1.returncode ++ ".") }
        else rt1
      .error (e, rt2)

/-- `CommandLine._list_outputs` (clis.py:381-393): derived file names of
the `name_source` traits, made absolute. -/
def listOutputsCL (inp : Inputs) (ext : Extern) (fuel : Nat) : Except PyErr (Option (List (String × Value))) :=
  let nsf := inp.fields.filter (fun n => (inp.spec n).name_source ≠ [])
  if nsf = [] then pure none
  else do
    let outs ← nsf.foldlM
      (fun acc n => do
        let outName := (inp.spec n).output_name.getD n
        match ← filenameFromSource inp fuel n [] with
        | some (.str s) => pure (upsertBy outName (Value.str (ext.absPath s)) acc)
        | some v => pure (upsertBy outName v acc)
        | none => pure acc)
      ([] : List (String × Value))
    pure (some outs)

/-- `BaseInterface.aggregate_outputs` (core.py:335-371) for an interface
without version constraints: validate the predicted outputs into a fresh
output-spec instance (modelled as the final mapping). -/
def aggregateOutputs (i : Iface) (ext : Extern) (fuel : Nat) : Except PyErr (Option (List (String × Value))) := do
  match ← listOutputsCL i.inp ext fuel with
  | none => pure (if i.hasOutputSpec then some [] else none)
  | some predicted => if i.hasOutputSpec then pure (some predicted) else throw .typeError

/-- `InterfaceResult` as far as the claims need it: the runtime and the
aggregated outputs. -/
structure IResult where
  runtime : Runtime
  outputs : Option (List (String × Value))
deriving Repr

/-- `BaseInterface.run` (core.py:268-326) for a `CommandLine` interface
with `version = None`: mandatory-input validation, runtime creation
(`RuntimeContext.__call__`), context entry setting the start time
(`__enter__`, support.py:78-87), `_run_interface`, output aggregation, and
context teardown.  A raised exception carries the final runtime (`none`
when the failure precedes runtime creation). -/
def runIface (i : Iface) (ext : Extern) (fuel : Nat) (codes : List Int) : (Except (PyErr × Option Runtime) IResult) × List REvent :=
  match checkMandatoryInputs i.ifname i.inp with
  | .error e => (.error (e, none), [])
  | .ok _ =>
    let rt0 : Runtime := { environ := i.baseEnviron, hostname := i.hostname, interface := i.ifname }
    let rt1 := { rt0 with startTime := some ext.tEnter }
    let (stepRes, evs) := runInterfaceStep i ext fuel codes rt1
    let evs2 := REvent.entered :: evs
    let ctxRes : Except (PyErr × Runtime) (Runtime × Option (List (String × Value))) :=
      match stepRes with
      | .error er => .error er
      | .ok rt =>
        match aggregateOutputs i ext fuel with
        | .error e => .error (e, rt)
        | .ok outs => .ok (rt, outs)
    match ctxRes with
    | .ok (rt, outs) =>
      match exitTeardown i.ignoreException ext.tExit (.ok rt) with
      | .ok rtF => (.ok ⟨rtF, outs⟩, evs2)
      | .error (e, rtF) => (.error (e, some rtF), evs2)
    | .error er =>
      match exitTeardown i.ignoreException ext.tExit (.error er) with
      | .ok rtF => (.ok ⟨rtF, none⟩, evs2)
      | .error (e, rtF) => (.error (e, some rtF), evs2)

/-- `run(**inputs)` (core.py:294-299): assign the extra inputs through
`trait_set` (change handlers firing) and then run; an assignment error
propagates before any runtime exists. -/
def runWithAssignments (i : Iface) (ext : Extern) (fuel : Nat) (codes : List Int) (assigns : List (String × Value)) : (Except (PyErr × Option Runtime) IResult) × List REvent :=
  match assignInputs i.inp.spec i.inp.value assigns with
  | .error e => (.error (e, none), [])
  | .ok vals => runIface { i with inp := ⟨i.inp.spec, vals, i.inp.fields⟩ } ext fuel codes

/-!  Claim-side definitions: statements of spec sentences, written from the
spec wording, to be compared with the embedded code. -/

/-- Spec wording (list fields, repeat marker): one instance of the
(marker-stripped) format string per list element. -/
def repeatPieces (fmt : String) (xs : List String) : List String :=
  xs.map (fun x => pyFormat fmt x)

/-- Spec wording: the per-element instances joined by the separator. -/
def repeatFormatted (fmt sep : String) (xs : List String) : String :=
  joinSep sep (repeatPieces fmt xs)

/-- Spec wording (list fields, no marker): one token in which all elements
are joined by the separator and substituted once. -/
def joinedFormatted (fmt sep : String) (xs : List String) : String :=
  pyFormat fmt (joinSep sep xs)

/-- The contributions of the parsed fields, in iteration order: field name,
declared position and formatted argument of every field that yields a
token. -/
def contribsOf (inp : Inputs) (fuel : Nat) (skip : List String) : List String → Except PyErr (List (String × Option Int × String))
  | [] => .ok []
  | n :: rest =>
    if n ∈ skip then contribsOf inp fuel skip rest
    else
      match fieldArg inp fuel n with
      | .error e => .error e
      | .ok none => contribsOf inp fuel skip rest
      | .ok (some a) =>
        match contribsOf inp fuel skip rest with
        | .error e => .error e
        | .ok cs => .ok ((n, (inp.spec n).position, a) :: cs)

/-- The positioned contributions selected by a sign predicate, as
(position, argument) pairs in iteration order. -/
def pairsBy (keep : Int → Bool) (cs : List (String × Option Int × String)) : List (Int × String) :=
  cs.filterMap (fun c =>
    match c.2.1 with
    | some p => if keep p then some (p, c.2.2) else none
    | none => none)

/-- The arguments of the contributions without a position, in iteration
order. -/
def midArgs (cs : List (String × Option Int × String)) : List String :=
  cs.filterMap (fun c => if c.2.1 = none then some c.2.2 else none)

/-- Spec wording (claim C6): all arguments of fields with non-negative
positions sorted by position ascending, then all arguments of fields with
no position, then all arguments of fields with negative positions sorted
ascending. -/
def claimParse (inp : Inputs) (fuel : Nat) (skip : List String) : Except PyErr (List String) :=
  match contribsOf inp fuel skip (parseFields inp) with
  | .error e => .error e
  | .ok cs =>
    .ok ((sortAssoc (pairsBy (fun p => 0 ≤ p) cs)).map (fun e => e.2)
      ++ midArgs cs
      ++ (sortAssoc (pairsBy (fun p => p < 0) cs)).map (fun e => e.2))

/-- The last contribution (in iteration order, i.e. alphabetically latest,
since the parser iterates sorted names) declaring position `p`. -/
def lastContribAt (p : Int) : List (String × Option Int × String) → Option (String × Option Int × String)
  | [] => none
  | c :: rest =>
    match lastContribAt p rest with
    | some r => some r
    | none => if c.2.1 = some p then some c else none

/-- The Python-dict fold of the bucket inserts. -/
def upsertAll {κ α : Type} [DecidableEq κ] (acc : List (κ × α)) (ps : List (κ × α)) : List (κ × α) :=
  ps.foldl (fun a kv => upsertBy kv.1 kv.2 a) acc

/-- Spec wording (claim C9): the defined values that differ from the
declared default. -/
def claimSavedNonDefault (inp : Inputs) : List (String × Value) :=
  inp.fields.filterMap (fun n =>
    match inp.value n with
    | some v => if v ≠ (inp.spec n).defaultValue then some (n, v) else none
    | none => none)

/-!  Concrete instances used by witnesses and counterexamples. -/

/-- A two-field spec: `out_file` derived from `in_file = "scan.nii"` with
template `%s_generated` and keep-extension. -/
def exC2Inp : Inputs :=
  ⟨fun n =>
    if n = "out_file" then
      { argstr := some "%s", name_source := ["in_file"], name_template := some "%s_generated", keep_extension := true }
    else if n = "in_file" then { argstr := some "%s" }
    else {},
   fun n => if n = "in_file" then some (.str "scan.nii") else none,
   ["in_file", "out_file"]⟩

/-- A self-referential `name_source` (`a` points at itself) whose owner also
declares `xor = [b]` with `b` defined. -/
def exC3XorInp : Inputs :=
  ⟨fun n => if n = "a" then { argstr := some "%s", name_source := ["a"], xor := ["b"] } else {},
   fun n => if n = "b" then some (.str "x.nii") else none,
   ["a", "b"]⟩

/-- A mutually pointing pair of undefined `name_source` fields. -/
def exC3CycleInp : Inputs :=
  ⟨fun n =>
    if n = "a" then { name_source := ["b"] }
    else if n = "b" then { name_source := ["a"] }
    else {},
   fun _ => none,
   ["a", "b"]⟩

/-- A boolean flag field with a marker-free format string, set to `false`,
next to an ordinary string field. -/
def exC5Inp : Inputs :=
  ⟨fun n =>
    if n = "flag" then { argstr := some "--verbose", kind := .bool, position := some 2 }
    else if n = "infile" then { argstr := some "%s", position := some 1 }
    else {},
   fun n =>
    if n = "flag" then some (.boolean false)
    else if n = "infile" then some (.str "in.nii")
    else none,
   ["flag", "infile"]⟩

/-- Two defined fields (`aaa` and `bbb`) declaring the same position `1`. -/
def exDupPosInp : Inputs :=
  ⟨fun n =>
    if n = "aaa" then { argstr := some "%s", position := some 1 }
    else if n = "bbb" then { argstr := some "%s", position := some 1 }
    else {},
   fun n =>
    if n = "aaa" then some (.str "x")
    else if n = "bbb" then some (.str "y")
    else none,
   ["aaa", "bbb"]⟩

/-- Three defined fields with the distinct positions 1, -1 and none. -/
def exC6WitInp : Inputs :=
  ⟨fun n =>
    if n = "pos1" then { argstr := some "%s", position := some 1 }
    else if n = "last" then { argstr := some "-o %s", position := some (-1) }
    else if n = "mid" then { argstr := some "-m %s" }
    else {},
   fun n =>
    if n = "pos1" then some (.str "x")
    else if n = "last" then some (.str "z")
    else if n = "mid" then some (.str "y")
    else none,
   ["pos1", "last", "mid"]⟩

/-- A second duplicate-position pair, reserved for the C10 witness. -/
def exC10Inp : Inputs :=
  ⟨fun n =>
    if n = "pp" then { argstr := some "%s", position := some 3 }
    else if n = "qq" then { argstr := some "%s", position := some 3 }
    else {},
   fun n =>
    if n = "pp" then some (.str "first")
    else if n = "qq" then some (.str "second")
    else none,
   ["pp", "qq"]⟩

/-- An interface wrapping `my_tool` with no declared inputs. -/
def exCmdIface : Iface :=
  { inp := ⟨fun _ => {}, fun _ => none, []⟩, cmd := "my_tool", hostname := "busyhost" }

/-- A world in which `my_tool` is nowhere on the search path. -/
def exExtMissing : Extern :=
  { which := fun _ _ => none, tEnter := 5, tExit := 9 }

/-- A world in which `my_tool` resolves and the subprocess exits with
code 7. -/
def exExtRc7 : Extern :=
  { which := fun _ _ => some "/usr/bin/my_tool", rc := 7, tEnter := 5, tExit := 9 }

/-- The spec table of the mutually exclusive pair
`out_postfix` / `output_image` (ants `WarpImageMultiTransform`). -/
def exXorSpec : String → FieldSpec := fun n =>
  if n = "out_postfix" then { xor := ["output_image"] }
  else if n = "output_image" then { argstr := some "%s", position := some 3, xor := ["out_postfix"] }
  else {}

/-- The interface for the xor scenario, with `out_postfix` already set. -/
def exXorIface : Iface :=
  { inp := ⟨exXorSpec, fun n => if n = "out_postfix" then some (.str "_wimt") else none, ["out_postfix", "output_image"]⟩,
    cmd := "WarpImageMultiTransform", hostname := "busyhost" }

/-- A spec with one `usedefault` boolean field (`use_mpi`, default
`False`, as in `MpiCommandLineInputSpec`) and one plain field, with no
value assigned by the user. -/
def exC9Spec : String → FieldSpec := fun n =>
  if n = "use_mpi" then { kind := .bool, usedefault := true, defaultValue := .boolean false }
  else {}

/-- The freshly initialized spec state for `exC9Spec`. -/
def exC9Inp : Inputs :=
  ⟨exC9Spec, defaultState exC9Spec ["n_procs", "use_mpi"], ["n_procs", "use_mpi"]⟩

/-- A spec with a `usedefault` field whose default is defined and which is
mutually exclusive with a second field (the `out_postfix`/`output_image`
pattern of ants `WarpImageMultiTransform`). -/
def exC9XorSpec : String → FieldSpec := fun n =>
  if n = "out_postfix" then { usedefault := true, defaultValue := .str "_wimt", xor := ["output_image"] }
  else if n = "output_image" then { xor := ["out_postfix"] }
  else {}

/-- The freshly initialized spec state for `exC9XorSpec`: `out_postfix`
holds its default, `output_image` is undefined. -/
def exC9XorInp : Inputs :=
  ⟨exC9XorSpec, defaultState exC9XorSpec ["out_postfix", "output_image"], ["out_postfix", "output_image"]⟩

/-- The pure effect of loading a JSON dict over a value state: entries
whose key names an existing field overwrite that field, left to right;
all other entries are ignored. -/
def dictApply (fields : List String) (dict : List (String × Value)) (vals : String → Option Value) : String → Option Value :=
  dict.foldl
    (fun vs kv =>
      if kv.1 ∈ fields then (fun m => if m = kv.1 then some kv.2 else vs m) else vs)
    vals

/-- The runtime propagated with the executable-not-found error of
`exCmdIface` under `exExtMissing`. -/
def exC1FinalRt : Runtime :=
  { environ := [], hostname := "busyhost", interface := "CommandLine",
    cmdline := some "my_tool", startTime := some 5, endTime := some 9, duration := some 4,
    returncode := none, successCodes := [0],
    traceback := some "RuntimeError: subprocess exited with code None.",
    commandPath := none, dependencies := "<skipped>" }

/-!  General lemmas about the association-list buckets. -/

theorem lookupBy_upsertBy {κ α : Type} [DecidableEq κ] (k k1 : κ) (v : α) (l : List (κ × α)) :
    lookupBy k (upsertBy k1 v l) = if k1 = k then some v else lookupBy k l := by
  induction l with
  | nil =>
    by_cases h : k1 = k <;> simp [upsertBy, lookupBy, h]
  | cons e rest ih =>
    by_cases h1 : e.1 = k1
    · by_cases h2 : k1 = k
      · subst h2; simp [upsertBy, lookupBy, h1]
      · have h3 : ¬ e.1 = k := by rw [h1]; exact h2
        simp [upsertBy, lookupBy, h1, h2, h3]
    · by_cases h2 : e.1 = k
      · have h3 : ¬ k1 = k := by
          intro hk; exact h1 (by rw [h2, hk])
        have h4 : ¬ k = k1 := fun hk => h3 hk.symm
        simp [upsertBy, lookupBy, h1, h2, h3, h4]
      · simp [upsertBy, lookupBy, h1, h2, ih]

theorem upsertBy_keys {κ α : Type} [DecidableEq κ] (k : κ) (v : α) (l : List (κ × α)) :
    (upsertBy k v l).map Prod.fst =
      if k ∈ l.map Prod.fst then l.map Prod.fst else l.map Prod.fst ++ [k] := by
  induction l with
  | nil => simp [upsertBy]
  | cons e rest ih =>
    by_cases h1 : e.1 = k
    · have h2 : k ∈ (e :: rest).map Prod.fst := by simp [h1.symm]
      simp [upsertBy, h1, h2]
    · have h3 : ¬ k = e.1 := fun hk => h1 hk.symm
      by_cases h2 : k ∈ rest.map Prod.fst
      · have h4 : k ∈ (e :: rest).map Prod.fst := by simp [h2]
        simp [upsertBy, h1, ih, h2, h4]
      · have h4 : k ∉ (e :: rest).map Prod.fst := by simp [h3, h2]
        simp [upsertBy, h1, ih, h2, h3, h4]

theorem upsertBy_keys_nodup {κ α : Type} [DecidableEq κ] (k : κ) (v : α) (l : List (κ × α))
    (h : (l.map Prod.fst).Nodup) : ((upsertBy k v l).map Prod.fst).Nodup := by
  rw [upsertBy_keys]
  by_cases h2 : k ∈ l.map Prod.fst
  · simpa [h2]
  · simpa [h2, List.nodup_append] using h

theorem upsertAll_keys_nodup {κ α : Type} [DecidableEq κ] (ps : List (κ × α)) :
    ∀ acc : List (κ × α), (acc.map Prod.fst).Nodup → ((upsertAll acc ps).map Prod.fst).Nodup := by
  induction ps with
  | nil => intro acc h; simpa [upsertAll]
  | cons e rest ih =>
    intro acc h
    simpa [upsertAll] using ih (upsertBy e.1 e.2 acc) (upsertBy_keys_nodup e.1 e.2 acc h)

theorem upsertBy_of_notMem {κ α : Type} [DecidableEq κ] (k : κ) (v : α) (l : List (κ × α))
    (h : k ∉ l.map Prod.fst) : upsertBy k v l = l ++ [(k, v)] := by
  induction l with
  | nil => simp [upsertBy]
  | cons e rest ih =>
    have h1 : ¬ e.1 = k := by
      intro hk; exact h (by simp [hk])
    have h2 : k ∉ rest.map Prod.fst := by
      intro hin; exact h (by simp [hin])
    simp [upsertBy, h1, ih h2]

theorem upsertAll_cons {κ α : Type} [DecidableEq κ] (acc : List (κ × α)) (e : κ × α) (rest : List (κ × α)) :
    upsertAll acc (e :: rest) = upsertAll (upsertBy e.1 e.2 acc) rest := by
  simp [upsertAll]

theorem upsertAll_of_nodup {κ α : Type} [DecidableEq κ] (ps : List (κ × α)) :
    ∀ acc : List (κ × α), ((acc ++ ps).map Prod.fst).Nodup → upsertAll acc ps = acc ++ ps := by
  induction ps with
  | nil => intro acc _; simp [upsertAll]
  | cons e rest ih =>
    intro acc h
    have hmem : (e.1 : κ) ∉ acc.map Prod.fst := by
      intro hin
      rw [List.map_append, List.nodup_append] at h
      exact h.2.2 hin (by simp)
    have hre : (((acc ++ [e]) ++ rest).map Prod.fst).Nodup := by
      have : (acc ++ [e]) ++ rest = acc ++ e :: rest := by simp
      rw [this]; exact h
    calc upsertAll acc (e :: rest)
        = upsertAll (upsertBy e.1 e.2 acc) rest := upsertAll_cons acc e rest
      _ = upsertAll (acc ++ [(e.1, e.2)]) rest := by rw [upsertBy_of_notMem e.1 e.2 acc hmem]
      _ = (acc ++ [e]) ++ rest := ih (acc ++ [e]) hre
      _ = acc ++ e :: rest := by simp

theorem lookupBy_upsertAll {κ α : Type} [DecidableEq κ] (k : κ) (ps : List (κ × α)) :
    ∀ acc : List (κ × α),
      lookupBy k (upsertAll acc ps) =
        match (ps.reverse.find? (fun e => e.1 = k)) with
        | some e => some e.2
        | none => lookupBy k acc := by
  induction ps with
  | nil => intro acc; simp [upsertAll]
  | cons e rest ih =>
    intro acc
    rw [upsertAll_cons, ih]
    rw [List.reverse_cons, List.find?_append]
    cases hfind : rest.reverse.find? (fun x => decide (x.1 = k)) with
    | some r => simp [hfind]
    | none =>
      by_cases hk : e.1 = k <;>
        simp [hfind, lookupBy_upsertBy, hk, List.find?, Option.orElse]

/-!  Characterization of the parser fold in terms of the per-field
contribution list. -/

theorem buildArgsAux_eq (inp : Inputs) (fuel : Nat) (skip : List String) :
    ∀ (names : List String) (acc : ParseAcc),
      buildArgsAux inp fuel skip acc names =
        (contribsOf inp fuel skip names).map (fun cs =>
          (upsertAll acc.1 (pairsBy (fun p => 0 ≤ p) cs),
           acc.2.1 ++ midArgs cs,
           upsertAll acc.2.2 (pairsBy (fun p => p < 0) cs))) := by
  intro names
  induction names with
  | nil =>
    intro acc
    simp [buildArgsAux, contribsOf, pairsBy, midArgs, upsertAll, Except.map]
  | cons n rest ih =>
    intro acc
    by_cases hskip : n ∈ skip
    · simp [buildArgsAux, contribsOf, hskip, ih]
    · cases hfa : fieldArg inp fuel n with
      | error e => simp [buildArgsAux, contribsOf, hskip, hfa, Except.map]
      | ok oarg =>
        cases oarg with
        | none => simp [buildArgsAux, contribsOf, hskip, hfa, ih]
        | some arg =>
          cases hpos : (inp.spec n).position with
          | none =>
            rw [buildArgsAux, contribsOf]
            simp only [hskip, if_false, hfa, hpos, ih]
            cases hcs : contribsOf inp fuel skip rest with
            | error e => simp [Except.map]
            | ok cs => simp [Except.map, pairsBy, midArgs, hpos]
          | some p =>
            by_cases hp : (0 : Int) ≤ p
            · rw [buildArgsAux, contribsOf]
              simp only [hskip, if_false, hfa, hpos, hp, if_true, ih]
              cases hcs : contribsOf inp fuel skip rest with
              | error e => simp [Except.map]
              | ok cs =>
                simp [Except.map, pairsBy, midArgs, hpos, hp, upsertAll_cons]
            · rw [buildArgsAux, contribsOf]
              simp only [hskip, if_false, hfa, hpos, hp, if_false, ih]
              cases hcs : contribsOf inp fuel skip rest with
              | error e => simp [Except.map]
              | ok cs =>
                have hneg : p < 0 := Int.not_le.mp hp
                simp [Except.map, pairsBy, midArgs, hpos, hp, hneg, upsertAll_cons]

/-- A field whose contribution is `none` (undefined value or a `None`
argument) leaves the fold unchanged. -/
theorem buildArgsAux_drop (inp : Inputs) (fuel : Nat) (skip : List String) (n : String)
    (hfa : fieldArg inp fuel n = .ok none) :
    ∀ (l1 l2 : List String) (acc : ParseAcc),
      buildArgsAux inp fuel skip acc (l1 ++ n :: l2) = buildArgsAux inp fuel skip acc (l1 ++ l2) := by
  intro l1
  induction l1 with
  | nil =>
    intro l2 acc
    by_cases hskip : n ∈ skip
    · simp [buildArgsAux, hskip]
    · simp [buildArgsAux, hskip, hfa]
  | cons m rest ih =>
    intro l2 acc
    by_cases hskip : m ∈ skip
    · simp [buildArgsAux, hskip, ih]
    · cases hfm : fieldArg inp fuel m with
      | error e => simp [buildArgsAux, hskip, hfm]
      | ok oarg =>
        cases oarg with
        | none => simp [buildArgsAux, hskip, hfm, ih]
        | some arg =>
          cases hpos : (inp.spec m).position with
          | none => simp [buildArgsAux, hskip, hfm, hpos, ih]
          | some p =>
            by_cases hp : (0 : Int) ≤ p <;> simp [buildArgsAux, hskip, hfm, hpos, hp, ih]

/-!  Helper evaluations on the concrete strings of the scenarios. -/

theorem splitFilename_scan : splitFilename "scan.nii" = ("", "scan", ".nii") := rfl

theorem splitFilename_scan_generated : splitFilename "scan_generated" = ("", "scan_generated", "") := rfl

theorem pyFormat_generated : pyFormat "%s_generated" "scan" = "scan_generated" := rfl

/-!  Claim theorems. -/

/-- C4: for a list-valued field with a defined value, a format string
ending in the repeat marker `...` yields one instance of the
(marker-stripped) format string per element joined by the separator
(exactly `len(list)` instances), and a format string without the marker
yields a single token in which all elements are joined by the separator
(default a single space) and substituted once. -/
theorem list_field_formatting (ts : FieldSpec) (a : String) (xs : List String)
    (hk : ts.kind = .list) :
    formatArg ts a (.strs xs) =
      some (if endsWithDots a then repeatFormatted (stripDots a) (ts.sep.getD " ") xs
            else joinedFormatted a (ts.sep.getD " ") xs) ∧
    (repeatPieces (stripDots a) xs).length = xs.length := by
  constructor
  · by_cases hd : endsWithDots a <;>
      simp [formatArg, hk, repeatFormatted, joinedFormatted, repeatPieces, Value.elems, hd]
  · simp [repeatPieces]

theorem list_field_formatting_witness :
    (formatArg { kind := .list } "--id %s..." (.strs ["1", "2", "3"]) =
        some (repeatFormatted (stripDots "--id %s...") " " ["1", "2", "3"]) ∧
      formatArg { kind := .list, sep := some "," } "-v %s" (.strs ["a", "b"]) =
        some (joinedFormatted "-v %s" "," ["a", "b"])) ∧
    formatArg { kind := .list } "--id %s..." (.strs ["1", "2", "3"]) = some "--id 1 --id 2 --id 3" ∧
    formatArg { kind := .list, sep := some "," } "-v %s" (.strs ["a", "b"]) = some "-v a,b" := by
  refine ⟨⟨?_, ?_⟩, rfl, rfl⟩
  · have h := list_field_formatting { kind := .list } "--id %s..." ["1", "2", "3"] rfl
    simpa using h.1
  · have h := list_field_formatting { kind := .list, sep := some "," } "-v %s" ["a", "b"] rfl
    simpa using h.1

/-- C5: a boolean field whose format string has no substitution marker
emits exactly the literal format string when true and nothing when false:
its `None` argument is skipped by the parser loop, so the field is absent
from the argument list whatever its declared position. -/
theorem bool_field_formatting (ts : FieldSpec) (a : String)
    (inp : Inputs) (fuel : Nat) (skip : List String) (n : String)
    (hk : ts.kind = .bool) (hm : strHasChar a '%' = false)
    (hspec : inp.spec n = ts) (hargstr : ts.argstr = some a) (hns : ts.name_source = [])
    (hval : inp.value n = some (.boolean false)) :
    formatArg ts a (.boolean true) = some a ∧
    formatArg ts a (.boolean false) = none ∧
    ∀ (l1 l2 : List String) (acc : ParseAcc),
      buildArgsAux inp fuel skip acc (l1 ++ n :: l2) = buildArgsAux inp fuel skip acc (l1 ++ l2) := by
  refine ⟨?_, ?_, ?_⟩
  · simp [formatArg, hk, hm, Value.truthy]
  · simp [formatArg, hk, hm, Value.truthy]
  · intro l1 l2 acc
    apply buildArgsAux_drop
    have hfa : fieldArg inp fuel n = .ok (formatArg ts a (.boolean false)) := by
      simp [fieldArg, hspec, hargstr, hns, hval, pure, Except.pure, Bind.bind, Except.bind]
    rw [hfa]
    simp [formatArg, hk, hm, Value.truthy]

theorem bool_field_formatting_witness :
    ((exC5Inp.spec "flag").kind = TraitKind.bool ∧
      strHasChar "--verbose" '%' = false) ∧
    formatArg (exC5Inp.spec "flag") "--verbose" (.boolean true) = some "--verbose" ∧
    parseInputs exC5Inp 3 [] = .ok ["in.nii"] := by
  refine ⟨⟨rfl, rfl⟩, ?_, rfl⟩
  exact (bool_field_formatting (exC5Inp.spec "flag") "--verbose" exC5Inp 3 [] "flag"
    rfl rfl rfl rfl rfl rfl).1

/-- C2: a field left undefined, marked keep-extension, with name template
`%s_generated` and single source field valued `"scan.nii"` (its xor and
requires groups empty) derives exactly `"scan_generated.nii"`. -/
theorem keep_extension_scenario_derivation (inp : Inputs) (fname src : String) (fuel : Nat)
    (h1 : (inp.spec fname).name_source = [src])
    (h2 : (inp.spec fname).name_template = some "%s_generated")
    (h3 : (inp.spec fname).keep_extension = true)
    (h4 : (inp.spec fname).xor = [])
    (h5 : (inp.spec fname).requires = [])
    (h6 : inp.value fname = none)
    (h7 : inp.value src = some (.str "scan.nii")) :
    filenameFromSource inp (fuel + 1) fname [] = .ok (some (.str "scan_generated.nii")) := by
  simp [filenameFromSource, h1, h2, h3, h4, h5, h6, h7, unlistValue,
    splitFilename_scan, finishDerive, pyFormat_generated, splitFilename_scan_generated,
    pure, Except.pure, Bind.bind, Except.bind]

theorem keep_extension_scenario_witness :
    ((exC2Inp.spec "out_file").name_source = ["in_file"] ∧
      (exC2Inp.spec "out_file").keep_extension = true ∧
      exC2Inp.value "out_file" = none ∧
      exC2Inp.value "in_file" = some (.str "scan.nii")) ∧
    filenameFromSource exC2Inp 4 "out_file" [] = .ok (some (.str "scan_generated.nii")) := by
  refine ⟨⟨rfl, rfl, rfl, rfl⟩, ?_⟩
  exact keep_extension_scenario_derivation exC2Inp "out_file" "in_file" 3
    rfl rfl rfl rfl rfl rfl rfl

/-!  Ordering of the final argument list. -/

theorem pairsBy_keys_sublist (keep : Int → Bool) (cs : List (String × Option Int × String)) :
    ((pairsBy keep cs).map Prod.fst).Sublist (cs.filterMap (fun c => c.2.1)) := by
  induction cs with
  | nil => simp [pairsBy]
  | cons c rest ih =>
    cases hp : c.2.1 with
    | none => simpa [pairsBy, hp] using ih
    | some p =>
      by_cases hk : keep p
      · simpa [pairsBy, hp, hk] using ih.cons₂ p
      · simpa [pairsBy, hp, hk] using ih.cons p

/-- C6 counterexample: with two defined fields `aaa`, `bbb` both declaring
position 1, the parser emits only `bbb`'s argument, while the claim (all
arguments of non-negatively positioned fields, sorted by position)
predicts both. -/
theorem duplicate_position_ordering_cx :
    parseInputs exDupPosInp 3 [] = .ok ["y"] ∧
    claimParse exDupPosInp 3 [] = .ok ["x", "y"] ∧
    parseInputs exDupPosInp 3 [] ≠ claimParse exDupPosInp 3 [] := by
  have h1 : parseInputs exDupPosInp 3 [] = .ok ["y"] := rfl
  have h2 : claimParse exDupPosInp 3 [] = .ok ["x", "y"] := rfl
  refine ⟨h1, h2, ?_⟩
  rw [h1, h2]
  simp

/-- C6 (amended): provided the positions declared by the contributing
fields are pairwise distinct, the final argument list is exactly: the
arguments of fields with non-negative positions sorted by position
ascending, then the arguments of fields with no position, then the
arguments of fields with negative positions sorted ascending (a trailing
group).  (When positions collide, the bucket keeps a single argument per
position, which is what forces the distinctness proviso.) -/
theorem parse_ordering_distinct_positions (inp : Inputs) (fuel : Nat) (skip : List String)
    (cs : List (String × Option Int × String))
    (hc : contribsOf inp fuel skip (parseFields inp) = .ok cs)
    (hnodup : (cs.filterMap (fun c => c.2.1)).Nodup) :
    parseInputs inp fuel skip = claimParse inp fuel skip ∧
    claimParse inp fuel skip = .ok
      ((sortAssoc (pairsBy (fun p => 0 ≤ p) cs)).map (fun e => e.2)
        ++ midArgs cs
        ++ (sortAssoc (pairsBy (fun p => p < 0) cs)).map (fun e => e.2)) := by
  have hn1 : ((pairsBy (fun p => 0 ≤ p) cs).map Prod.fst).Nodup :=
    hnodup.sublist (pairsBy_keys_sublist _ cs)
  have hn2 : ((pairsBy (fun p => p < 0) cs).map Prod.fst).Nodup :=
    hnodup.sublist (pairsBy_keys_sublist _ cs)
  have e1 : upsertAll [] (pairsBy (fun p => 0 ≤ p) cs) = pairsBy (fun p => 0 ≤ p) cs := by
    simpa using upsertAll_of_nodup (pairsBy (fun p => 0 ≤ p) cs) [] (by simpa using hn1)
  have e2 : upsertAll [] (pairsBy (fun p => p < 0) cs) = pairsBy (fun p => p < 0) cs := by
    simpa using upsertAll_of_nodup (pairsBy (fun p => p < 0) cs) [] (by simpa using hn2)
  have hb := buildArgsAux_eq inp fuel skip (parseFields inp) ([], [], [])
  rw [hc] at hb
  constructor
  · rw [parseInputs, hb, claimParse, hc]
    simp [Except.map, e1, e2]
  · rw [claimParse, hc]

theorem parse_ordering_distinct_positions_witness :
    (contribsOf exC6WitInp 3 [] (parseFields exC6WitInp) =
        .ok [("last", some (-1), "-o z"), ("mid", none, "-m y"), ("pos1", some 1, "x")]) ∧
    parseInputs exC6WitInp 3 [] = claimParse exC6WitInp 3 [] ∧
    parseInputs exC6WitInp 3 [] = .ok ["x", "-m y", "-o z"] := by
  have h := parse_ordering_distinct_positions exC6WitInp 3 []
    [("last", some (-1), "-o z"), ("mid", none, "-m y"), ("pos1", some 1, "x")] rfl (by decide)
  exact ⟨rfl, h.1, rfl⟩

/-!  Duplicate positions: the bucket keeps the last (alphabetically
latest) writer. -/

theorem find_reverse_pairsBy (p : Int) (keep : Int → Bool) (hp : keep p = true) :
    ∀ cs : List (String × Option Int × String),
      ((pairsBy keep cs).reverse.find? (fun e => e.1 = p)) =
        (lastContribAt p cs).map (fun c => (p, c.2.2)) := by
  intro cs
  induction cs with
  | nil => simp [pairsBy, lastContribAt]
  | cons c rest ih =>
    cases hc : c.2.1 with
    | none =>
      have hpair : pairsBy keep (c :: rest) = pairsBy keep rest := by
        simp [pairsBy, hc]
      rw [hpair, ih, lastContribAt]
      cases hl : lastContribAt p rest with
      | some r => simp
      | none => simp [hc]
    | some q =>
      by_cases hk : keep q = true
      · have hpair : pairsBy keep (c :: rest) = (q, c.2.2) :: pairsBy keep rest := by
          simp [pairsBy, hc, hk]
        rw [hpair, List.reverse_cons, List.find?_append, ih, lastContribAt]
        cases hl : lastContribAt p rest with
        | some r => simp
        | none =>
          by_cases hqp : q = p
          · subst hqp
            simp [hc, List.find?]
          · have : ¬ c.2.1 = some p := by rw [hc]; simp [hqp]
            simp [hc, hqp, List.find?, this]
      · have hpair : pairsBy keep (c :: rest) = pairsBy keep rest := by
          simp [pairsBy, hc, hk]
        have hqp : ¬ q = p := by
          intro hqp; rw [hqp, hp] at hk; exact hk rfl
        rw [hpair, ih, lastContribAt]
        cases hl : lastContribAt p rest with
        | some r => simp
        | none => simp [hc, hqp]

theorem filter_key_len_le_one {κ α : Type} [DecidableEq κ] (p : κ) (l : List (κ × α))
    (h : (l.map Prod.fst).Nodup) : (l.filter (fun e => e.1 = p)).length ≤ 1 := by
  induction l with
  | nil => simp
  | cons e rest ih =>
    simp only [List.map_cons, List.nodup_cons] at h
    by_cases hp : e.1 = p
    · have hnil : rest.filter (fun x => x.1 = p) = [] := by
        rw [List.filter_eq_nil_iff]
        intro x hx
        simp only [decide_eq_true_eq]
        intro hxp
        refine h.1 ?_
        rw [hp]
        exact (List.mem_map).mpr ⟨x, hx, hxp⟩
      simp [hp, hnil]
    · simpa [hp] using ih h.2

/-- C10: when several defined fields declare the same position, the
position bucket retains at most one argument for that position, namely the
argument of the contributor latest in the sorted (alphabetical) iteration
order; the other arguments are overwritten in the Python dict. -/
theorem duplicate_position_last_wins (inp : Inputs) (fuel : Nat) (skip : List String) (p : Int)
    (cs : List (String × Option Int × String))
    (hc : contribsOf inp fuel skip (parseFields inp) = .ok cs)
    (_hdup : 2 ≤ (cs.filter (fun c => c.2.1 = some p)).length) :
    ∃ ia mid fa,
      buildArgsAux inp fuel skip ([], [], []) (parseFields inp) = .ok (ia, mid, fa) ∧
      ((if 0 ≤ p then ia else fa).filter (fun e => e.1 = p)).length ≤ 1 ∧
      lookupBy p (if 0 ≤ p then ia else fa) = (lastContribAt p cs).map (fun c => c.2.2) := by
  have hb := buildArgsAux_eq inp fuel skip (parseFields inp) ([], [], [])
  rw [hc] at hb
  refine ⟨upsertAll [] (pairsBy (fun q => 0 ≤ q) cs), midArgs cs,
    upsertAll [] (pairsBy (fun q => q < 0) cs), by simpa [Except.map] using hb, ?_, ?_⟩
  · by_cases hsign : (0 : Int) ≤ p
    · have hn := upsertAll_keys_nodup (pairsBy (fun q => 0 ≤ q) cs) [] (by simp)
      simpa [hsign] using filter_key_len_le_one p _ hn
    · have hn := upsertAll_keys_nodup (pairsBy (fun q => q < 0) cs) [] (by simp)
      simpa [hsign] using filter_key_len_le_one p _ hn
  · by_cases hsign : (0 : Int) ≤ p
    · rw [if_pos hsign, lookupBy_upsertAll,
        find_reverse_pairsBy p (fun q => decide (0 ≤ q)) (by simpa using hsign) cs]
      cases lastContribAt p cs with
      | none => simp [lookupBy]
      | some r => simp
    · have hneg : p < 0 := Int.not_le.mp hsign
      rw [if_neg hsign, lookupBy_upsertAll,
        find_reverse_pairsBy p (fun q => decide (q < 0)) (by simpa using hneg) cs]
      cases lastContribAt p cs with
      | none => simp [lookupBy]
      | some r => simp

theorem duplicate_position_last_wins_witness :
    (contribsOf exC10Inp 3 [] (parseFields exC10Inp) =
        .ok [("pp", some 3, "first"), ("qq", some 3, "second")] ∧
      2 ≤ ([("pp", (some 3 : Option Int), "first"), ("qq", some 3, "second")].filter
        (fun c => c.2.1 = some 3)).length) ∧
    (∃ ia mid fa,
      buildArgsAux exC10Inp 3 [] ([], [], []) (parseFields exC10Inp) = .ok (ia, mid, fa) ∧
      ((if (0 : Int) ≤ 3 then ia else fa).filter (fun e => e.1 = 3)).length ≤ 1 ∧
      lookupBy 3 (if (0 : Int) ≤ 3 then ia else fa) =
        (lastContribAt 3 [("pp", some 3, "first"), ("qq", some 3, "second")]).map (fun c => c.2.2)) := by
  refine ⟨⟨rfl, by decide⟩, ?_⟩
  exact duplicate_position_last_wins exC10Inp 3 [] 3
    [("pp", some 3, "first"), ("qq", some 3, "second")] rfl (by decide)

/-!  The execution wrapper claims. -/

/-- C1 counterexample: with `my_tool` absent from the search path the run
raises the executable-not-found `IOError` naming the executable and the
host, but the result it carries already has its start time, end time and
duration set — the error is not raised "before any timing fields are
set". -/
theorem executable_not_found_timing_cx :
    (runIface exCmdIface exExtMissing 3 [0]).1 =
      .error (.ioError "No command \"my_tool\" found on host busyhost. Please check that the corresponding package is installed.", some exC1FinalRt) ∧
    exC1FinalRt.startTime = some 5 ∧
    exC1FinalRt.endTime = some 9 ∧
    exC1FinalRt.duration = some 4 := by
  exact ⟨rfl, rfl, rfl, rfl⟩

/-- C1 (amended): an unresolvable executable makes the run raise an
executable-not-found `IOError` naming the executable and the host, before
any subprocess is executed; at the moment the error is raised the start
time has already been set by context entry (end time and duration are
still unset), and context teardown then populates the end time and
duration on the propagated result. -/
theorem executable_not_found_after_start_time (i : Iface) (ext : Extern) (fuel : Nat)
    (codes : List Int) (cl : String)
    (hcl : cmdlineOf i fuel = .ok cl)
    (hign : i.ignoreException = false)
    (hwhich : ext.which (firstToken (i.cmdPre ++ i.cmd)) (envUpdate i.baseEnviron i.environOverrides) = none) :
    ∃ rtRaise rtFinal : Runtime,
      runInterfaceStep i ext fuel codes
          { environ := i.baseEnviron, hostname := i.hostname, interface := i.ifname, startTime := some ext.tEnter } =
        (.error (.ioError ("No command \"" ++ firstToken (i.cmdPre ++ i.cmd) ++ "\" found on host "
          ++ i.hostname ++ ". Please check that the corresponding package is installed."), rtRaise), []) ∧
      rtRaise.startTime = some ext.tEnter ∧ rtRaise.endTime = none ∧ rtRaise.duration = none ∧
      (runIface i ext fuel codes).1 =
        .error (.ioError ("No command \"" ++ firstToken (i.cmdPre ++ i.cmd) ++ "\" found on host "
          ++ i.hostname ++ ". Please check that the corresponding package is installed."), some rtFinal) ∧
      rtFinal.startTime = some ext.tEnter ∧ rtFinal.endTime = some ext.tExit ∧
      rtFinal.duration = some (ext.tExit - ext.tEnter) ∧
      (runIface i ext fuel codes).2 = [REvent.entered] := by
  have hchk : checkMandatoryInputs i.ifname i.inp = .ok () := by
    have h := hcl
    rw [cmdlineOf] at h
    cases hc : checkMandatoryInputs i.ifname i.inp with
    | error e =>
      rw [hc] at h
      simp [Bind.bind, Except.bind] at h
    | ok u => cases u; rfl
  refine ⟨{
      environ := envUpdate i.baseEnviron i.environOverrides
      hostname := i.hostname
      interface := i.ifname
      cmdline := some cl
      startTime := some ext.tEnter
      successCodes := codes },
    {
      environ := envUpdate i.baseEnviron i.environOverrides
      hostname := i.hostname
      interface := i.ifname
      cmdline := some cl
      startTime := some ext.tEnter
      successCodes := codes
      endTime := some ext.tExit
      duration := some (ext.tExit - ext.tEnter)
      traceback := some "RuntimeError: subprocess exited with code None." },
    ?_, rfl, rfl, rfl, ?_, rfl, rfl, rfl, ?_⟩ <;>
    simp [runIface, runInterfaceStep, exitTeardown, rcOutsideSuccess, pyStrOfOptInt,
      hchk, hcl, hign, hwhich, excText]

theorem executable_not_found_after_start_time_witness :
    (cmdlineOf exCmdIface 3 = .ok "my_tool" ∧
      exCmdIface.ignoreException = false ∧
      exExtMissing.which (firstToken (exCmdIface.cmdPre ++ exCmdIface.cmd))
        (envUpdate exCmdIface.baseEnviron exCmdIface.environOverrides) = none) ∧
    (∃ rtRaise rtFinal : Runtime,
      runInterfaceStep exCmdIface exExtMissing 3 [0]
          { environ := exCmdIface.baseEnviron, hostname := exCmdIface.hostname,
            interface := exCmdIface.ifname, startTime := some exExtMissing.tEnter } =
        (.error (.ioError ("No command \"" ++ firstToken (exCmdIface.cmdPre ++ exCmdIface.cmd) ++ "\" found on host "
          ++ exCmdIface.hostname ++ ". Please check that the corresponding package is installed."), rtRaise), []) ∧
      rtRaise.startTime = some exExtMissing.tEnter ∧ rtRaise.endTime = none ∧ rtRaise.duration = none ∧
      (runIface exCmdIface exExtMissing 3 [0]).1 =
        .error (.ioError ("No command \"" ++ firstToken (exCmdIface.cmdPre ++ exCmdIface.cmd) ++ "\" found on host "
          ++ exCmdIface.hostname ++ ". Please check that the corresponding package is installed."), some rtFinal) ∧
      rtFinal.startTime = some exExtMissing.tEnter ∧ rtFinal.endTime = some exExtMissing.tExit ∧
      rtFinal.duration = some (exExtMissing.tExit - exExtMissing.tEnter) ∧
      (runIface exCmdIface exExtMissing 3 [0]).2 = [REvent.entered]) := by
  refine ⟨⟨rfl, rfl, rfl⟩, ?_⟩
  exact executable_not_found_after_start_time exCmdIface exExtMissing 3 [0] "my_tool" rfl rfl rfl

/-- C7: a completed subprocess run whose return code lies outside the
declared success-code set records the failure as a traceback annotation on
the returned result; the run call returns normally (no exception). -/
theorem nonzero_returncode_recorded (i : Iface) (ext : Extern) (fuel : Nat) (codes : List Int)
    (cl pth : String)
    (hcl : cmdlineOf i fuel = .ok cl)
    (hwhich : ext.which (firstToken (i.cmdPre ++ i.cmd)) (envUpdate i.baseEnviron i.environOverrides) = some pth)
    (hnsf : i.inp.fields.filter (fun n => (i.inp.spec n).name_source ≠ []) = [])
    (hrc : ext.rc ∉ codes) :
    ∃ res : IResult,
      (runIface i ext fuel codes).1 = .ok res ∧
      res.runtime.traceback = some ("RuntimeError: subprocess exited with code " ++ toString ext.rc ++ ".") ∧
      res.runtime.returncode = some ext.rc ∧
      (runIface i ext fuel codes).2 = [REvent.entered, REvent.subprocess] := by
  have hchk : checkMandatoryInputs i.ifname i.inp = .ok () := by
    have h := hcl
    rw [cmdlineOf] at h
    cases hc : checkMandatoryInputs i.ifname i.inp with
    | error e =>
      rw [hc] at h
      simp [Bind.bind, Except.bind] at h
    | ok u => cases u; rfl
  have hagg : aggregateOutputs i ext fuel = .ok (if i.hasOutputSpec then some [] else none) := by
    rw [aggregateOutputs, listOutputsCL, hnsf]
    simp [pure, Except.pure, Bind.bind, Except.bind]
  refine ⟨⟨{
      environ := envUpdate i.baseEnviron i.environOverrides
      hostname := i.hostname
      interface := i.ifname
      cmdline := some cl
      startTime := some ext.tEnter
      successCodes := codes
      endTime := some ext.tExit
      duration := some (ext.tExit - ext.tEnter)
      returncode := some ext.rc
      stdout := some ext.stdoutText
      stderr := some ext.stderrText
      commandPath := some pth
      traceback := some ("RuntimeError: subprocess exited with code " ++ toString ext.rc ++ ".") },
    if i.hasOutputSpec then some [] else none⟩, ?_, rfl, rfl, ?_⟩ <;>
    simp [runIface, runInterfaceStep, exitTeardown, rcOutsideSuccess, pyStrOfOptInt,
      hchk, hcl, hwhich, hagg, hrc]

theorem nonzero_returncode_recorded_witness :
    (cmdlineOf exCmdIface 3 = .ok "my_tool" ∧ (7 : Int) ∉ ([0] : List Int)) ∧
    (∃ res : IResult,
      (runIface exCmdIface exExtRc7 3 [0]).1 = .ok res ∧
      res.runtime.traceback = some ("RuntimeError: subprocess exited with code " ++ toString (7 : Int) ++ ".") ∧
      res.runtime.returncode = some 7 ∧
      (runIface exCmdIface exExtRc7 3 [0]).2 = [REvent.entered, REvent.subprocess]) := by
  refine ⟨⟨rfl, by decide⟩, ?_⟩
  exact nonzero_returncode_recorded exCmdIface exExtRc7 3 [0] "my_tool" "/usr/bin/my_tool"
    rfl rfl rfl (by decide)

/-- C8: assigning a value to the second of a mutually exclusive pair while
the first is already defined raises the mutual-exclusion `IOError` from
the change handler, and the run pipeline stops before the runtime context
is even entered — in particular before any subprocess execution. -/
theorem xor_assignment_raises (specOf : String → FieldSpec) (vals : String → Option Value)
    (a b : String) (v : Value) (i : Iface) (ext : Extern) (fuel : Nat) (codes : List Int)
    (hxor : (specOf b).xor = [a]) (hab : a ≠ b) (hdef : (vals a).isSome = true)
    (hi : i.inp.spec = specOf) (hv : i.inp.value = vals) :
    assignInput specOf vals b v =
      .error (.ioError ("Input \"" ++ b ++ "\" is mutually exclusive with input \"" ++ a ++ "\", which is already set")) ∧
    runWithAssignments i ext fuel codes [(b, v)] =
      (.error (.ioError ("Input \"" ++ b ++ "\" is mutually exclusive with input \"" ++ a ++ "\", which is already set"), none), []) := by
  have h1 : assignInput specOf vals b v =
      .error (.ioError ("Input \"" ++ b ++ "\" is mutually exclusive with input \"" ++ a ++ "\", which is already set")) := by
    rw [assignInput]
    simp [hxor, hab, hdef, throw, throwThe, MonadExceptOf.throw]
  refine ⟨h1, ?_⟩
  rw [runWithAssignments, hi, hv]
  simp [assignInputs, List.foldlM, h1, Bind.bind, Except.bind]

theorem xor_assignment_raises_witness :
    ((exXorSpec "output_image").xor = ["out_postfix"] ∧
      (exXorIface.inp.value "out_postfix").isSome = true) ∧
    runWithAssignments exXorIface exExtRc7 3 [0] [("output_image", .str "out.nii")] =
      (.error (.ioError "Input \"output_image\" is mutually exclusive with input \"out_postfix\", which is already set", none), []) := by
  refine ⟨⟨rfl, rfl⟩, ?_⟩
  exact (xor_assignment_raises exXorSpec exXorIface.inp.value "out_postfix" "output_image"
    (.str "out.nii") exXorIface exExtRc7 3 [0] rfl (by decide) rfl rfl rfl).2

/-!  JSON persistence (save / load). -/

/-- C9 counterexample, both halves of the claim.  Save: a spec whose only
set value is the `usedefault` default of `use_mpi` (`False`) still writes
that default value to the JSON mapping, while "exactly the defined,
non-default field values" would write nothing.  Load: a JSON key
(`output_image`) that names an existing field whose mutually-exclusive
partner (`out_postfix`) is already defined is not set — the assignment
fires the xor change handler and the load raises `IOError` instead. -/
theorem save_load_json_claim_cx :
    (saveInputsToJson exC9Inp = ([("use_mpi", Value.boolean false)], 4) ∧
      claimSavedNonDefault exC9Inp = [] ∧
      (saveInputsToJson exC9Inp).1 ≠ claimSavedNonDefault exC9Inp) ∧
    (exC9XorInp.value "out_postfix" = some (.str "_wimt") ∧
      ("output_image" : String) ∈ exC9XorInp.fields ∧
      loadInputsFromJson exC9XorInp [("output_image", Value.str "o.nii")] true =
        .error (.ioError "Input \"output_image\" is mutually exclusive with input \"out_postfix\", which is already set")) := by
  have h1 : saveInputsToJson exC9Inp = ([("use_mpi", Value.boolean false)], 4) := rfl
  have h2 : claimSavedNonDefault exC9Inp = [] := rfl
  refine ⟨⟨h1, h2, ?_⟩, rfl, by decide, rfl⟩
  rw [h2]
  intro h
  rw [h1] at h
  simp at h

theorem assignInput_ok (specOf : String → FieldSpec) (vals : String → Option Value)
    (n : String) (v : Value) (hx : (specOf n).xor = []) :
    assignInput specOf vals n v = .ok (fun m => if m = n then some v else vals m) := by
  rw [assignInput]
  simp [hx, pure, Except.pure]

theorem lookupBy_eq_none {κ α : Type} [DecidableEq κ] (k : κ) (l : List (κ × α))
    (h : k ∉ l.map Prod.fst) : lookupBy k l = none := by
  induction l with
  | nil => rfl
  | cons e rest ih =>
    have h1 : ¬ e.1 = k := by
      intro hk; exact h (by simp [hk])
    have h2 : k ∉ rest.map Prod.fst := by
      intro hin; exact h (by simp [hin])
    simp [lookupBy, h1, ih h2]

theorem loadAssign_ok (specOf : String → FieldSpec) (fields : List String) :
    ∀ (dict : List (String × Value)),
      (∀ kv ∈ dict, kv.1 ∈ fields → (specOf kv.1).xor = []) →
      ∀ (vals : String → Option Value),
        loadAssign specOf fields [] vals dict = .ok (dictApply fields dict vals) := by
  intro dict
  induction dict with
  | nil => intro _ vals; simp [loadAssign, dictApply]
  | cons kv rest ih =>
    intro hxorFree vals
    have ihr := ih (fun kv2 h2 => hxorFree kv2 (List.mem_cons_of_mem kv h2))
    by_cases hin : kv.1 ∈ fields
    · rw [loadAssign]
      simp only [List.not_mem_nil, not_false_iff, true_and, hin, if_true,
        assignInput_ok specOf vals kv.1 kv.2 (hxorFree kv (List.mem_cons_self kv rest) hin), ihr]
      simp [dictApply, hin]
    · rw [loadAssign]
      simp only [List.not_mem_nil, not_false_iff, true_and, hin, if_false, ihr]
      simp [dictApply, hin]

theorem dictApply_eval (fields : List String) :
    ∀ (dict : List (String × Value)), (dict.map Prod.fst).Nodup →
      ∀ (vals : String → Option Value) (m : String),
        dictApply fields dict vals m =
          match lookupBy m dict with
          | some v => if m ∈ fields then some v else vals m
          | none => vals m := by
  intro dict
  induction dict with
  | nil => intro _ vals m; simp [dictApply, lookupBy]
  | cons kv rest ih =>
    intro hnod vals m
    simp only [List.map_cons, List.nodup_cons] at hnod
    have hstep : dictApply fields (kv :: rest) vals =
        dictApply fields rest
          (if kv.1 ∈ fields then (fun x => if x = kv.1 then some kv.2 else vals x) else vals) := by
      simp [dictApply]
    rw [hstep, ih hnod.2]
    by_cases hk : kv.1 = m
    · subst hk
      have hnone : lookupBy kv.1 rest = none := lookupBy_eq_none _ _ hnod.1
      have hlk : lookupBy kv.1 (kv :: rest) = some kv.2 := by simp [lookupBy]
      rw [hnone, hlk]
      by_cases hin : kv.1 ∈ fields <;> simp [hin]
    · have hne : ¬ m = kv.1 := fun hmk => hk hmk.symm
      have hlk : lookupBy m (kv :: rest) = lookupBy m rest := by
        simp [lookupBy, hk]
      rw [hlk]
      by_cases hin : kv.1 ∈ fields
      · simp only [hin, if_true, hne, if_false]
      · simp only [hin, if_false]

/-- C9 (amended): saving writes the mapping of exactly the defined field
values — user-assigned values and the declared defaults of `usedefault`
fields — with 4-space indentation; loading a JSON dict (unique keys)
whose field-naming keys carry no mutually-exclusive (xor) constraint —
assignment fires the xor change handler, which raises `IOError` when a
partner is already defined — assigns every key that names an existing
field and silently ignores unknown keys, leaving every other field
unchanged. -/
theorem save_load_json_behavior (inp : Inputs) (jsonDict : List (String × Value))
    (hxorFree : ∀ kv ∈ jsonDict, kv.1 ∈ inp.fields → (inp.spec kv.1).xor = [])
    (hjnod : (jsonDict.map Prod.fst).Nodup) :
    ((saveInputsToJson inp).2 = 4 ∧
      ∀ m v, (m, v) ∈ (saveInputsToJson inp).1 ↔ (m ∈ inp.fields ∧ inp.value m = some v)) ∧
    ∃ inp2 : Inputs,
      loadInputsFromJson inp jsonDict true = .ok inp2 ∧
      inp2.spec = inp.spec ∧ inp2.fields = inp.fields ∧
      ∀ m, inp2.value m =
        match lookupBy m jsonDict with
        | some v => if m ∈ inp.fields then some v else inp.value m
        | none => inp.value m := by
  refine ⟨⟨rfl, ?_⟩, ?_⟩
  · intro m v
    simp only [saveInputsToJson, getTraitsfree, List.mem_filterMap]
    constructor
    · rintro ⟨n, hn, hf⟩
      cases hv : inp.value n with
      | none => rw [hv] at hf; simp at hf
      | some w =>
        rw [hv] at hf
        rw [show Option.map (fun v => (n, v)) (some w) = some (n, w) from rfl] at hf
        have hf2 : (n, w) = (m, v) := Option.some.inj hf
        have hnm : n = m := congrArg Prod.fst hf2
        have hwv : w = v := congrArg Prod.snd hf2
        subst hnm; subst hwv
        exact ⟨hn, hv⟩
    · rintro ⟨hm, hv⟩
      exact ⟨m, hm, by rw [hv]; rfl⟩
  · refine ⟨⟨inp.spec, dictApply inp.fields jsonDict inp.value, inp.fields⟩, ?_, rfl, rfl, ?_⟩
    · show (match loadAssign inp.spec inp.fields (if true then [] else (getTraitsfree inp).map (fun e => e.1)) inp.value jsonDict with
        | .error e => (.error e : Except PyErr Inputs)
        | .ok vals => .ok ⟨inp.spec, vals, inp.fields⟩) =
        .ok ⟨inp.spec, dictApply inp.fields jsonDict inp.value, inp.fields⟩
      rw [show (if true then ([] : List String) else (getTraitsfree inp).map (fun e => e.1)) = [] from rfl]
      rw [loadAssign_ok inp.spec inp.fields jsonDict hxorFree inp.value]
    · intro m
      exact dictApply_eval inp.fields jsonDict hjnod inp.value m

theorem save_load_json_behavior_witness :
    ((∀ kv ∈ [("use_mpi", Value.boolean true), ("not_a_field", Value.str "z")],
        kv.1 ∈ exC9Inp.fields → (exC9Inp.spec kv.1).xor = []) ∧
      (([("use_mpi", Value.boolean true), ("not_a_field", Value.str "z")].map Prod.fst).Nodup)) ∧
    (((saveInputsToJson exC9Inp).2 = 4 ∧
      ∀ m v, (m, v) ∈ (saveInputsToJson exC9Inp).1 ↔ (m ∈ exC9Inp.fields ∧ exC9Inp.value m = some v)) ∧
    ∃ inp2 : Inputs,
      loadInputsFromJson exC9Inp [("use_mpi", Value.boolean true), ("not_a_field", Value.str "z")] true = .ok inp2 ∧
      inp2.spec = exC9Inp.spec ∧ inp2.fields = exC9Inp.fields ∧
      ∀ m, inp2.value m =
        match lookupBy m [("use_mpi", Value.boolean true), ("not_a_field", Value.str "z")] with
        | some v => if m ∈ exC9Inp.fields then some v else exC9Inp.value m
        | none => exC9Inp.value m) := by
  have hx : ∀ kv ∈ [("use_mpi", Value.boolean true), ("not_a_field", Value.str "z")],
      kv.1 ∈ exC9Inp.fields → (exC9Inp.spec kv.1).xor = [] := by
    intro kv hkv
    fin_cases hkv
    · intro _; rfl
    · intro h; exact absurd h (by decide)
  refine ⟨⟨hx, by decide⟩, ?_⟩
  exact save_load_json_behavior exC9Inp
    [("use_mpi", Value.boolean true), ("not_a_field", Value.str "z")] hx (by decide)

/-!  Cyclic name_source derivation. -/

/-- C3 counterexample: field `a` is its own `name_source` and is
undefined, yet because its mutually-exclusive partner `b` is defined the
deriver returns the undefined value without raising the cyclic-source
error — the claim's "always raises" does not hold as stated. -/
theorem cyclic_name_source_xor_escape_cx :
    (exC3XorInp.spec "a").name_source = ["a"] ∧
    exC3XorInp.value "a" = none ∧
    filenameFromSource exC3XorInp 5 "a" [] = .ok none := ⟨rfl, rfl, rfl⟩

/-- One derivation step whose source field is undefined and already
leads into the recursion: the inner error propagates unchanged. -/
theorem ffs_step_propagate (inp : Inputs) (f : Nat) (name : String) (chain : List String)
    (ns : String) (rest : List String) (e : PyErr)
    (hv : inp.value name = none)
    (hns : (inp.spec name).name_source = ns :: rest)
    (hx : (inp.spec name).xor.any (fun t => (inp.value t).isSome) = false)
    (hr : (inp.spec name).requires.all (fun t => (inp.value t).isSome) = true)
    (hnsv : inp.value ns = none)
    (hnotin : name ∉ chain)
    (herr : filenameFromSource inp f ns (chain ++ [name]) = .error e) :
    filenameFromSource inp (f + 1) name chain = .error e := by
  rw [filenameFromSource]
  simp [hv, hns, hx, hr, hnsv, hnotin, herr, Bind.bind, Except.bind, pure, Except.pure]

/-- One derivation step whose source field is undefined while the field
itself is already on the visitation chain: the cyclic-source error is
raised. -/
theorem ffs_raises_in_chain (inp : Inputs) (f : Nat) (name : String) (chain : List String)
    (ns : String) (rest : List String)
    (hv : inp.value name = none)
    (hns : (inp.spec name).name_source = ns :: rest)
    (hx : (inp.spec name).xor.any (fun t => (inp.value t).isSome) = false)
    (hr : (inp.spec name).requires.all (fun t => (inp.value t).isSome) = true)
    (hnsv : inp.value ns = none)
    (hin : name ∈ chain) :
    filenameFromSource inp (f + 1) name chain = .error (.interfaceError "Mutually pointing name_sources") := by
  rw [filenameFromSource]
  simp [hv, hns, hx, hr, hnsv, hin, Bind.bind, Except.bind, pure, Except.pure,
    throw, throwThe, MonadExceptOf.throw]

theorem nodup_split_not_mem (pre post : List String) (x : String)
    (h : (pre ++ x :: post).Nodup) : x ∉ pre := by
  rw [List.nodup_append] at h
  intro hx
  exact h.2.2 hx (by simp)

theorem cyclic_walk (inp : Inputs) (cyc : List String)
    (hnodup : cyc.Nodup)
    (hundef : ∀ n ∈ cyc, inp.value n = none)
    (hxor : ∀ n ∈ cyc, (inp.spec n).xor.any (fun t => (inp.value t).isSome) = false)
    (hreq : ∀ n ∈ cyc, (inp.spec n).requires.all (fun t => (inp.value t).isSome) = true)
    (hlink : ∀ (pre post : List String) (x : String), cyc = pre ++ x :: post →
      (inp.spec x).name_source.head? =
        some (match post with | y :: _ => y | [] => cyc.headD "")) :
    ∀ (post pre : List String) (x : String), cyc = pre ++ x :: post →
      ∀ fuel, post.length + 2 ≤ fuel →
      filenameFromSource inp fuel x pre = .error (.interfaceError "Mutually pointing name_sources") := by
  intro post
  induction post with
  | nil =>
    intro pre x hdec fuel hfuel
    cases fuel with
    | zero => exact absurd hfuel (by omega)
    | succ f =>
    cases f with
    | zero => exact absurd hfuel (by omega)
    | succ g =>
      have hxmem : x ∈ cyc := by rw [hdec]; simp
      have hhead := hlink pre [] x hdec
      cases hns : (inp.spec x).name_source with
      | nil => rw [hns] at hhead; simp at hhead
      | cons n0 nrest =>
        rw [hns] at hhead
        simp only [List.head?] at hhead
        have hn0 : n0 = cyc.headD "" := Option.some.inj hhead
        cases hcyc : cyc with
        | nil => rw [hcyc] at hdec; exact absurd hdec.symm (by simp)
        | cons c0 ctail =>
          have hc0 : n0 = c0 := by rw [hn0, hcyc]; rfl
          subst hc0
          have hc0mem : n0 ∈ cyc := by rw [hcyc]; simp
          apply ffs_step_propagate inp (g + 1) x pre n0 nrest _
            (hundef x hxmem) hns (hxor x hxmem) (hreq x hxmem) (hundef n0 hc0mem)
            (nodup_split_not_mem pre [] x (hdec ▸ hnodup))
          have hchain : pre ++ [x] = cyc := hdec.symm
          -- the head of the cycle is now derived with the full cycle as chain
          have hhead2 := hlink [] ctail n0 (by rw [hcyc]; rfl)
          cases hns2 : (inp.spec n0).name_source with
          | nil => rw [hns2] at hhead2; simp at hhead2
          | cons m0 mrest =>
            rw [hns2] at hhead2
            simp only [List.head?] at hhead2
            cases hct2 : ctail with
            | nil =>
              rw [hct2] at hhead2
              have hm0 : m0 = cyc.headD "" := Option.some.inj hhead2
              have hm0mem : m0 ∈ cyc := by
                rw [hm0, hcyc, hct2]
                simp
              rw [hchain]
              exact ffs_raises_in_chain inp g n0 cyc m0 mrest
                (hundef n0 hc0mem) hns2 (hxor n0 hc0mem) (hreq n0 hc0mem)
                (hundef m0 hm0mem) (by rw [hcyc]; simp)
            | cons d dtail =>
              rw [hct2] at hhead2
              have hm0 : m0 = d := Option.some.inj hhead2
              have hm0mem : m0 ∈ cyc := by
                rw [hm0, hcyc, hct2]
                simp
              rw [hchain]
              exact ffs_raises_in_chain inp g n0 cyc m0 mrest
                (hundef n0 hc0mem) hns2 (hxor n0 hc0mem) (hreq n0 hc0mem)
                (hundef m0 hm0mem) (by rw [hcyc]; simp)
  | cons y post2 ih =>
    intro pre x hdec fuel hfuel
    cases fuel with
    | zero => exact absurd hfuel (by omega)
    | succ g =>
      have hxmem : x ∈ cyc := by rw [hdec]; simp
      have hymem : y ∈ cyc := by rw [hdec]; simp
      have hhead := hlink pre (y :: post2) x hdec
      cases hns : (inp.spec x).name_source with
      | nil => rw [hns] at hhead; simp at hhead
      | cons n0 nrest =>
        rw [hns] at hhead
        simp only [List.head?] at hhead
        have hn0 : n0 = y := Option.some.inj hhead
        subst hn0
        apply ffs_step_propagate inp g x pre n0 nrest _
          (hundef x hxmem) hns (hxor x hxmem) (hreq x hxmem) (hundef n0 hymem)
          (nodup_split_not_mem pre (n0 :: post2) x (hdec ▸ hnodup))
        apply ih (pre ++ [x]) n0 (by rw [hdec]; simp) g
          (by simp only [List.length_cons] at hfuel; omega)

/-- C3 (amended): for a field whose `name_source` chain leads back to
itself with every field of the chain undefined, and whose chain fields
are not short-circuited by the derivation guards (no mutually-exclusive
partner defined, all required-together companions defined), filename
derivation raises `NipypeInterfaceError "Mutually pointing name_sources"`
and therefore never returns a derived value.  (Without the guard proviso
the deriver can instead return the undefined value untouched, without
raising.) -/
theorem cyclic_name_source_raises (inp : Inputs) (cyc : List String)
    (hne : cyc ≠ [])
    (hnodup : cyc.Nodup)
    (hundef : ∀ n ∈ cyc, inp.value n = none)
    (hxor : ∀ n ∈ cyc, (inp.spec n).xor.any (fun t => (inp.value t).isSome) = false)
    (hreq : ∀ n ∈ cyc, (inp.spec n).requires.all (fun t => (inp.value t).isSome) = true)
    (hlink : ∀ (pre post : List String) (x : String), cyc = pre ++ x :: post →
      (inp.spec x).name_source.head? =
        some (match post with | y :: _ => y | [] => cyc.headD ""))
    (fuel : Nat) (hfuel : cyc.length + 1 ≤ fuel) :
    filenameFromSource inp fuel (cyc.headD "") [] =
      .error (.interfaceError "Mutually pointing name_sources") := by
  cases hcyc : cyc with
  | nil => exact absurd hcyc hne
  | cons c0 ctail =>
    have hdec : cyc = [] ++ c0 :: ctail := by rw [hcyc]; rfl
    have hlen : ctail.length + 2 ≤ fuel := by
      rw [hcyc] at hfuel
      simpa [List.length_cons] using hfuel
    have h := cyclic_walk inp cyc hnodup hundef hxor hreq hlink ctail [] c0 hdec fuel hlen
    simpa using h

theorem cyclic_name_source_raises_witness :
    ((["a", "b"] : List String) ≠ [] ∧ (["a", "b"] : List String).Nodup ∧
      (∀ n ∈ (["a", "b"] : List String), exC3CycleInp.value n = none) ∧
      (["a", "b"] : List String).length + 1 ≤ 3) ∧
    filenameFromSource exC3CycleInp 3 ((["a", "b"] : List String).headD "") [] =
      .error (.interfaceError "Mutually pointing name_sources") := by
  have hlink : ∀ (pre post : List String) (x : String),
      (["a", "b"] : List String) = pre ++ x :: post →
      (exC3CycleInp.spec x).name_source.head? =
        some (match post with | y :: _ => y | [] => (["a", "b"] : List String).headD "") := by
    intro pre post x h
    cases pre with
    | nil =>
      have hx : "a" = x := by injection h with h1 h2
      have hp : ["b"] = post := by injection h with h1 h2
      rw [← hx, ← hp]
      rfl
    | cons p pre2 =>
      have h2 : ["b"] = pre2 ++ x :: post := by injection h with h1 h2
      cases pre2 with
      | nil =>
        have hx : "b" = x := by injection h2 with h3 h4
        have hp : ([] : List String) = post := by injection h2 with h3 h4
        rw [← hx, ← hp]
        rfl
      | cons q pre3 =>
        have h3 : ([] : List String) = pre3 ++ x :: post := by injection h2 with h4 h5
        exact absurd h3.symm (by simp)
  refine ⟨⟨by decide, by decide, fun n _ => rfl, by decide⟩, ?_⟩
  exact cyclic_name_source_raises exC3CycleInp ["a", "b"] (by decide) (by decide)
    (fun n _ => rfl) (fun n hn => by fin_cases hn <;> rfl) (fun n hn => by fin_cases hn <;> rfl)
    hlink 3 (by decide)
